import Mathlib

set_option maxRecDepth 8000

/-!  Verification development for the blockchain_workshop ledger.

Shallow embedding of the consensus / state-transition core:
`src/types/account.rs`, `src/types/transaction.rs`, `src/types/block.rs`,
`src/types/blockchain.rs` and `src/utils.rs`.  Machine integers (`u64`,
`u128`, `usize`) are modelled as `Nat`; the spec declares balance overflow a
non-goal, and no reachable subtraction underflows (each is guarded in the
source), so no wrap-around modelling is required.  The Blake2s digest and the
ed25519 signature scheme are external collaborators (spec section 6); digests
are modelled as the injective canonical field tuples they are computed from
(spec section 4.1: a hash is a pure function of the entity's canonical field
tuple).  -/

/-- Constant `MAX_TARGET` from src/types/mod.rs (`0x1ffffff0 = 536_870_896`). -/
def MAX_TARGET : Nat := 536870896

/-- Constant `EXPECTED_TIME` from src/types/mod.rs (the `f64` value `1.5`),
as the exact rational 3/2. -/
def EXPECTED_TIME : Rat := 3 / 2

/-- Modelled from the spec: the constant `COEFFICIENT_LENGTH` is declared in
`src/types` but the declaration is missing from the provided sources
(`src/utils.rs` and `src/main.rs` import it).  Its value 6 is pinned by the
comment "3 bytes = 6 digits in hex" at its use site in `src/utils.rs` and by
the regression test `test_hash_to_bits`, whose expected output `"0f0333a1"`
consists of 2 exponent digits followed by 6 coefficient digits. -/
def COEFFICIENT_LENGTH : Nat := 6

/-- Account identifiers (`AccountId = String` in src/types/mod.rs). -/
abbrev AccountId := String

/-- Modelled from the spec: ed25519 public keys (`PK = PublicKey`) are opaque
to the core (spec section 6); we model them as abstract identifiers. -/
abbrev PK := Nat

/-- Enum `AccountType` from src/types/account.rs. -/
inductive AccountType where
  | user
  | contract
deriving DecidableEq

/-- Struct `Account` from src/types/account.rs
(`account_type`, `balance : u128`, `public_key`). -/
structure Account where
  account_type : AccountType
  balance : Nat
  public_key : PK
deriving DecidableEq

/-- Constructor `Account::new`: zero balance. -/
def Account.new (ty : AccountType) (pk : PK) : Account :=
  { account_type := ty, balance := 0, public_key := pk }

/-- Enum `TransactionData`.  The stale snapshot of src/types/transaction.rs
declares `CreateAccount(AccountId)` with a single field, but src/traits.rs
(`create_account` takes a `public_key`), src/types/account.rs, src/utils.rs
and every test construct `CreateAccount(account_id, public_key)`; we use the
two-field form the rest of the crate compiles against. -/
inductive TransactionData where
  | createAccount (id : AccountId) (pk : PK)
  | mintInitialSupply (toId : AccountId) (amount : Nat)
  | transfer (toId : AccountId) (amount : Nat)
deriving DecidableEq

/-- Canonical field tuple hashed by `Transaction::hash`:
`(nonce, timestamp, from, data)` - the signature field is excluded. -/
abbrev TxTup := Nat × Nat × Option AccountId × TransactionData

/-- Ideal model of the Blake2s-based digests (spec section 4.1): a hash value
is determined by, and determines, the canonical field tuple it was computed
from.  `tx` models `Transaction::hash`; `blkNone`/`blkSome` model
`Block::hash` (prev_hash, nonce, followed by the hash of every transaction in
order) - the optional `prev_hash` is split into two constructors so that the
inductive uses only direct recursion, which keeps equality derivable. -/
inductive HashVal where
  | tx (tup : TxTup)
  | blkNone (nonce : Nat) (txs : List TxTup)
  | blkSome (prev : HashVal) (nonce : Nat) (txs : List TxTup)
deriving DecidableEq

/-- Packaging of an optional previous-block hash into the block digest (the
`(prev_hash, nonce)` part of the `Hashable for Block` input). -/
def mkBlkHash (prev : Option HashVal) (nonce : Nat) (txs : List TxTup) :
    HashVal :=
  match prev with
  | none => .blkNone nonce txs
  | some p => .blkSome p nonce txs

/-- Modelled from the spec: an ideal ed25519 signature (spec section 6) is a
value that determines the signing keypair and the signed message, so that
verification against a public key over a message succeeds exactly when the
signature was produced by that key over those bytes. -/
abbrev Sig := PK × HashVal

/-- Verification of an ideal signature against a public key and a message. -/
def sigVerify (pk : PK) (msg : HashVal) (s : Sig) : Bool :=
  s.1 == pk && s.2 == msg

/-- Struct `Transaction` from src/types/transaction.rs.  The Rust field `from`
is named `sender` here (`from` is reserved in Lean). -/
structure Transaction where
  nonce : Nat
  timestamp : Nat
  sender : Option AccountId
  data : TransactionData
  signature : Option Sig
deriving DecidableEq

/-- Method `Transaction::new`. -/
def Transaction.new (data : TransactionData) (sender : Option AccountId) :
    Transaction :=
  { nonce := 0, timestamp := 0, sender := sender, data := data,
    signature := none }

/-- Canonical field tuple of a transaction (the `format!` input of
`Hashable for Transaction`). -/
def Transaction.tup (t : Transaction) : TxTup :=
  (t.nonce, t.timestamp, t.sender, t.data)

/-- Impl `Hashable for Transaction`: digest of
`(nonce, timestamp, from, data)`; the signature field is not hashed. -/
def Transaction.hash (t : Transaction) : HashVal :=
  .tx t.tup

/-- Account table of the `Blockchain` world state
(`HashMap<AccountId, Account>`), modelled as an association list with the
usual first-match lookup; `create_account` only inserts absent keys, so keys
are unique in every reachable table. -/
abbrev AccountMap := List (AccountId × Account)

/-- Method `WorldState::get_account_by_id` as implemented by `Blockchain`. -/
def get_account_by_id (m : AccountMap) (id : AccountId) : Option Account :=
  m.lookup id

/-- Method `WorldState::create_account` as implemented by `Blockchain`
(src/types/blockchain.rs): error on an occupied entry, otherwise insert a
fresh account. -/
def create_account (m : AccountMap) (id : AccountId) (ty : AccountType)
    (pk : PK) : Except String AccountMap :=
  match m.lookup id with
  | some _ => .error ("AccountId already exist: " ++ id)
  | none => .ok ((id, Account.new ty pk) :: m)

/-- Replacement of the first entry with the given key (the effect of a
mutation through `get_account_by_id_mut`). -/
def modifyAccount : AccountMap → AccountId → (Account → Account) → AccountMap
  | [], _, _ => []
  | (k, a) :: rest, id, f =>
    if k = id then (k, f a) :: rest else (k, a) :: modifyAccount rest id f

/-- Helper `Transaction::is_enough` from src/types/transaction.rs: the balance
check used by `Transfer` (true iff `acc > amount`, strictly). -/
def is_enough (acc : Nat) (amount : Nat) : Bool :=
  if acc > amount then true else false

/-- Method `Transaction::execute` from src/types/transaction.rs (the snapshot
in src/, which carries "TODO Task 2: Implement signature" and performs no
signature checks).  State mutation through `&mut self` is modelled by
returning the new account table; every error path in the source returns
before mutating, so an error carries no state change. -/
def Transaction.execute (t : Transaction) (m : AccountMap)
    (is_genesis : Bool) : Except String AccountMap :=
  match t.data with
  | .createAccount id pk =>
    -- the source passes the account id and `AccountType::User` on to
    -- `state.create_account` (the public key per src/traits.rs)
    create_account m id .user pk
  | .mintInitialSupply toId amount =>
    if !is_genesis then
      .error ("Initial supply can be minted only in genesis block.")
    else
      match get_account_by_id m toId with
      | some _account =>
        .ok (modifyAccount m toId
          (fun a => { a with balance := a.balance + amount }))
      | none => .error ("Invalid account.")
  | .transfer toId amount =>
    match t.sender with
    | none => .error ("Sender name doesn\x27t exist")
    | some sender =>
      match get_account_by_id m sender with
      | none => .error ("Sender account doesn\x27t exist")
      | some sender_account =>
        if is_enough sender_account.balance amount then
          match get_account_by_id m toId with
          | some _ =>
            -- credit the receiver first, then debit the sender, exactly as
            -- the source sequences its two `get_account_by_id_mut` calls
            let m1 := modifyAccount m toId
              (fun a => { a with balance := a.balance + amount })
            let m2 := modifyAccount m1 sender
              (fun a => { a with balance := a.balance - amount })
            .ok m2
          | none => .error ("Receiver doesn\x27t exist")
        else
          .error ("Sender haven\x27t enough money!")

/-- Modelled from the spec: the signature-verifying `Transaction::execute`
(spec section 4.3).  The transaction.rs snapshot in src/ predates "Task 2:
Implement signature" (it has no signature handling and its `CreateAccount`
arity contradicts src/traits.rs and every caller and test, e.g.
`test_invalid_signature`), so the gating is reconstructed from the spec:
`CreateAccount` fails without a sender, on a foreign absent sender (the
self-registration exception), without a signature, or when the signature does
not verify against the carried `public_key` over this transaction's own hash;
`Transfer` fails without a signature or when it does not verify against the
sender's registered key over this transaction's own hash.  All parts present
in the src snapshot (mint gating, balance check, state updates) are kept
verbatim from `Transaction.execute`. -/
def Transaction.executeSigned (t : Transaction) (m : AccountMap)
    (is_genesis : Bool) : Except String AccountMap :=
  match t.data with
  | .createAccount id pk =>
    match t.sender with
    | none => .error ("Sender name doesn\x27t exist")
    | some sender =>
      if (get_account_by_id m sender).isNone && sender != id then
        .error ("Sender account doesn\x27t exist")
      else
        match t.signature with
        | none => .error ("Transaction is not signed")
        | some s =>
          if sigVerify pk t.hash s then
            create_account m id .user pk
          else
            .error ("Invalid signature")
  | .mintInitialSupply toId amount =>
    if !is_genesis then
      .error ("Initial supply can be minted only in genesis block.")
    else
      match get_account_by_id m toId with
      | some _account =>
        .ok (modifyAccount m toId
          (fun a => { a with balance := a.balance + amount }))
      | none => .error ("Invalid account.")
  | .transfer toId amount =>
    match t.sender with
    | none => .error ("Sender name doesn\x27t exist")
    | some sender =>
      match get_account_by_id m sender with
      | none => .error ("Sender account doesn\x27t exist")
      | some sender_account =>
        match t.signature with
        | none => .error ("Transaction is not signed")
        | some s =>
          if sigVerify sender_account.public_key t.hash s then
            if is_enough sender_account.balance amount then
              match get_account_by_id m toId with
              | some _ =>
                let m1 := modifyAccount m toId
                  (fun a => { a with balance := a.balance + amount })
                let m2 := modifyAccount m1 sender
                  (fun a => { a with balance := a.balance - amount })
                .ok m2
              | none => .error ("Receiver doesn\x27t exist")
            else
              .error ("Sender haven\x27t enough money!")
          else
            .error ("Invalid signature")

deriving instance DecidableEq for Except

/-- Struct `Block` from src/types/block.rs. -/
structure Block where
  nonce : Nat
  timestamp : Nat
  hash : Option HashVal
  prev_hash : Option HashVal
  transactions : List Transaction
deriving DecidableEq

/-- Impl `Hashable for Block`: digest over `(prev_hash, nonce)` followed by
the hash of every transaction in order.  Named `calcHash` because the struct
field `hash` shadows the method name in Lean. -/
def Block.calcHash (b : Block) : HashVal :=
  mkBlkHash b.prev_hash b.nonce (b.transactions.map Transaction.tup)

/-- Method `Block::update_hash`: cache the recomputed hash. -/
def Block.update_hash (b : Block) : Block :=
  { b with hash := some b.calcHash }

/-- Method `Block::new`.  The source stamps the block with the wall clock
(`generate_timestamp`), an external input (spec section 6) passed here as the
`timestamp` argument. -/
def Block.new (prev_hash : Option HashVal) (timestamp : Nat) : Block :=
  Block.update_hash
    { nonce := 0, timestamp := timestamp, hash := none,
      prev_hash := prev_hash, transactions := [] }

/-- Method `Block::set_nonce`: mutate and immediately re-cache the hash. -/
def Block.set_nonce (b : Block) (nonce : Nat) : Block :=
  Block.update_hash { b with nonce := nonce }

/-- Method `Block::add_transaction`: push and immediately re-cache the hash. -/
def Block.add_transaction (b : Block) (t : Transaction) : Block :=
  Block.update_hash { b with transactions := b.transactions ++ [t] }

/-- Method `Block::verify`: the cached hash exists and matches a freshly
recomputed hash. -/
def Block.verify (b : Block) : Bool :=
  match b.hash with
  | some h => h == b.calcHash
  | none => false

/-- Modelled from the spec: the `Chain<Block>` container (src/types/chain.rs
is declared in src/types/mod.rs but missing from the provided sources).
Spec section 3: an append-only ordered sequence exposing length, iteration
and most-recently-appended (head) access; `Blockchain::validate` walks it
from most recent to oldest via `iter()`, so the model is a list whose head is
the most recently appended block. -/
abbrev Chain := List Block

/-- Modelled from the spec: `Chain::append` makes the new block the head. -/
def Chain.append (c : Chain) (b : Block) : Chain := b :: c

/-- Modelled from the spec: `Chain::head`, the most recently appended block. -/
def Chain.head (c : Chain) : Option Block := c.head?

/-- Struct `Blockchain` from src/types/blockchain.rs. -/
structure Blockchain where
  blocks : Chain
  accounts : AccountMap
  transaction_pool : List Transaction
  current_target : Nat
  last_timestamp : Nat
deriving DecidableEq

/-- Constructor `Blockchain::new`: all fields default, then
`current_target = MAX_TARGET`. -/
def Blockchain.new : Blockchain :=
  { blocks := [], accounts := [], transaction_pool := [],
    current_target := MAX_TARGET, last_timestamp := 0 }

/-- Method `Blockchain::get_last_block_hash`: recomputed hash of the head
block, if any. -/
def Blockchain.get_last_block_hash (bc : Blockchain) : Option HashVal :=
  (Chain.head bc.blocks).map Block.calcHash

/-- Sequential execution of a block's transactions against live account
state, as performed by the loop in `Blockchain::append_block`: stop at the
first failing transaction and report its error. -/
def execTxs : List Transaction → AccountMap → Bool → Except String AccountMap
  | [], m, _ => .ok m
  | t :: ts, m, g =>
    match t.execute m g with
    | .error e => .error e
    | .ok m2 => execTxs ts m2 g

/-- Method `Blockchain::append_block` from src/types/blockchain.rs.  The Rust
method mutates `&mut self` and returns `Result<(), Error>`; the model returns
both.  The guard `check_target(self.current_target, block.hash.unwrap())`
evaluates the Blake2s digest of the block as a hex string, which is outside
the ideal-hash model, so the composite predicate is passed in as `ct`
(every theorem below holds for an arbitrary `ct`).  The floating-point
retarget arithmetic (`f64`) is modelled exactly: with
`EXPECTED_TIME = 1.5` the ratio is the rational `2*actual/3`, the clamp
bounds translate to integer comparisons, and the ceiling of
`current_target * ratio` is computed by exact ceiling division (every value
involved is far below 2^53, where `f64` arithmetic on integers and quarters
is exact up to the one rounding of `actual/1.5`, which the clamp and the
final ceiling absorb for all claims proved here). -/
def Blockchain.append_block (ct : Nat → HashVal → Bool) (bc : Blockchain)
    (block : Block) : Except String Unit × Blockchain :=
  if block.verify = false then
    (.error ("Block has invalid hash"), bc)
  else
    match block.hash with
    | none =>
      -- unreachable: `block.verify` guarantees the cached hash is present
      (.error ("Block has invalid hash"), bc)
    | some h =>
      if ct bc.current_target h = false then
        (.error ("Block hash > current target!"), bc)
      else
        let is_genesis := bc.blocks.length == 0
        if block.transactions.length == 0 then
          (.error ("Block has 0 transactions."), bc)
        else
          let account_backup := bc.accounts
          match execTxs block.transactions bc.accounts is_genesis with
          | .error e =>
            (.error ("Error during tx execution: " ++ e),
             { bc with accounts := account_backup })
          | .ok accounts2 =>
            let bc2 := { bc with accounts := accounts2 }
            let bc3 :=
              if is_genesis = false then
                let actual : Nat := block.timestamp - bc2.last_timestamp
                -- ratio = (actual as f64) / EXPECTED_TIME, exactly
                -- 2*actual/3; the clamp `ratio < 0.25` holds iff
                -- 8*actual < 3 and `ratio > 4.0` iff 12 < 2*actual.  The
                -- clamped ratio is carried as the exact fraction num/den
                let num_den : Nat × Nat :=
                  if 8 * actual < 3 then (1, 4)
                  else if 12 < 2 * actual then (4, 1)
                  else (2 * actual, 3)
                -- `(current_target as f64 * ratio).ceil()`, exactly:
                -- ceil((t*num)/den) = (t*num + den - 1) / den
                let c : Nat :=
                  (bc2.current_target * num_den.1 + (num_den.2 - 1))
                    / num_den.2
                if MAX_TARGET ≤ c then
                  { bc2 with current_target := MAX_TARGET }
                else
                  { bc2 with current_target := c }
              else bc2
            (.ok (),
             { bc3 with last_timestamp := block.timestamp,
                        blocks := Chain.append bc3.blocks block })

/-- Loop body of `Blockchain::validate`: `len` is the (fixed) chain length,
`num` the source's `block_num` counter, `prevH` the source's
`prev_block_hash` carry (the previous iterate's `prev_hash`). -/
def validateLoop (len : Nat) : Chain → Nat → Option HashVal →
    Except String Unit
  | [], _, _ => .ok ()
  | b :: rest, num, prevH =>
    if b.verify = false then
      .error ("Block " ++ toString num ++ " has invalid hash")
    else if (num == 1) = false && b.prev_hash.isNone then
      .error ("Block " ++ toString num ++ " doesn\x27t have prev_hash")
    else if (num == 1) && b.prev_hash.isSome then
      .error ("Genesis block shouldn\x27t have prev_hash")
    else
      let linkage : Except String Unit :=
        if (num == len) = false then
          match prevH with
          | some p =>
            if (p == b.hash.getD (HashVal.blkNone 0 [])) = false then
              .error ("Block " ++ toString (num + 1) ++
                " prev_hash doesn\x27t match Block " ++ toString num ++
                " hash")
            else .ok ()
          | none => .ok ()
        else .ok ()
      match linkage with
      | .error e => .error e
      | .ok _ => validateLoop len rest (num - 1) b.prev_hash

/-- Method `Blockchain::validate` from src/types/blockchain.rs: walk the
chain from most recent to oldest with `block_num` counting down from the
chain length. -/
def Blockchain.validate (bc : Blockchain) : Except String Unit :=
  validateLoop bc.blocks.length bc.blocks bc.blocks.length none

/-- Ledger states reachable through the public lifecycle: `Blockchain::new`
followed by any sequence of `append_block` calls (successful or not), for
arbitrary target predicates. -/
inductive Reachable : Blockchain → Prop where
  | new : Reachable Blockchain.new
  | step (ct : Nat → HashVal → Bool) (bc : Blockchain) (block : Block) :
      Reachable bc → Reachable (Blockchain.append_block ct bc block).2

/-- Lowercase hex digit for a value below 16 (the alphabet of
`hex::encode`). -/
def hexDigitChar (n : Nat) : Char :=
  if n < 10 then Char.ofNat (48 + n) else Char.ofNat (87 + n)

/-- Rendering of one byte as two lowercase hex digits
(`hex::encode(vec![b])`). -/
def hexEncodeByte (b : Nat) : String :=
  String.mk [hexDigitChar (b / 16), hexDigitChar (b % 16)]

/-- Function `find_beginning_of_hash` from src/utils.rs: index of the first
character that is not `'0'`, or 0 if every character is `'0'` (the loop falls
through to `return 0`). -/
def find_beginning_of_hash (hash : String) : Nat :=
  match hash.toList.findIdx? (fun c => c ≠ '0') with
  | some i => i
  | none => 0

/-- Function `hash_to_bits` from src/utils.rs: drop the leading zeros, pad on
the left to an even number of hex digits, emit the byte length of the result
as a 2-digit exponent (`as u8` truncates modulo 256) followed by the first
`COEFFICIENT_LENGTH` digits as the coefficient.  The source slices
`&new_hash[..COEFFICIENT_LENGTH]` unconditionally, which panics when the
(padded) trailing substring is shorter than `COEFFICIENT_LENGTH`; the panic
is modelled as `none`. -/
def hash_to_bits (hash : String) : Option String :=
  let beginning := find_beginning_of_hash hash
  let new_hash0 := hash.toList.drop beginning
  let new_hash :=
    if new_hash0.length % 2 ≠ 0 then '0' :: new_hash0 else new_hash0
  let number_of_bytes := new_hash.length / 2
  let exponent := hexEncodeByte (number_of_bytes % 256)
  if COEFFICIENT_LENGTH ≤ new_hash.length then
    some (exponent ++ String.mk (new_hash.take COEFFICIENT_LENGTH))
  else
    none

/-- Numeric value of a lowercase or uppercase hex digit. -/
def hexDigitVal? (c : Char) : Option Nat :=
  if '0' ≤ c ∧ c ≤ '9' then some (c.toNat - 48)
  else if 'a' ≤ c ∧ c ≤ 'f' then some (c.toNat - 87)
  else if 'A' ≤ c ∧ c ≤ 'F' then some (c.toNat - 55)
  else none

/-- Parse of `u64::from_str_radix(s, 16)`: `none` on an empty string, on a
non-hex character, or on overflow past `u64::MAX`. -/
def parseHex? (s : String) : Option Nat :=
  if s.toList = [] then none
  else
    (s.toList.foldl
      (fun acc c =>
        match acc, hexDigitVal? c with
        | some v, some d => some (v * 16 + d)
        | _, _ => none)
      (some 0)).bind
      (fun v => if v < 2 ^ 64 then some v else none)

/-- Function `check_target` from src/utils.rs: true iff the numeric value of
the compact form of the hash is strictly below the target.  The source
unwraps both `hash_to_bits` (which can panic on the coefficient slice) and
the radix parse; both panics are modelled as `none`. -/
def check_target (target : Nat) (hash : String) : Option Bool :=
  match hash_to_bits hash with
  | none => none
  | some s =>
    match parseHex? s with
    | none => none
    | some v => some (decide (v < target))

/-- Statement of claim C8's acceptance condition, written from the spec's
words for comparison against `Blockchain.validate` (blocks listed newest
first): every block's cached hash matches its recomputed hash, the oldest
block has no `prev_hash`, and every other block's `prev_hash` is exactly the
hash of the block immediately preceding it in chain order. -/
def specChainValid : Chain → Bool
  | [] => true
  | [b] => b.verify && b.prev_hash == (none : Option HashVal)
  | b :: b2 :: rest =>
    b.verify && b.prev_hash == some b2.calcHash && specChainValid (b2 :: rest)

/-- Numeric value of a list of hex digits (most significant first); junk
digits count as 0, which never arises on the inputs used here. -/
def hexValue (l : List Char) : Nat :=
  l.foldl (fun acc c => acc * 16 + ((hexDigitVal? c).getD 0)) 0

/-- Lowercase hex rendering of a number, as produced by `format!("{:x}")`. -/
def hexRender (n : Nat) : String :=
  String.mk (Nat.toDigits 16 n)

/-- Statement of claim C2's retarget procedure, written from the spec's words
(section 4.2, steps 3-6) for comparison against the retarget actually
performed by `Blockchain.append_block`: split the compact form into a
2-hex-digit exponent and a coefficient, scale the coefficient by the clamped
ratio (passed exactly as the fraction `rnum/rden`; additionally by 16 when
the coefficient's third hex digit is `0` and the ratio is below 1), ceil,
re-render in hex, apply the borrow/carry rules on the rendered length, and
recombine into the new compact form and its numeric value. -/
def specCompactRetarget (compact : String) (rnum rden : Nat) : String × Nat :=
  let digits := compact.toList
  let exponentVal := hexValue (digits.take 2)
  let coeffDigits := digits.drop 2
  let coeff : Nat := hexValue coeffDigits
  -- new_coefficient = coefficient * ratio with ratio = rnum/rden (exact);
  -- times 16 when the third hex digit is zero and the ratio is below 1
  let scaledNum : Nat :=
    if coeffDigits.getD 2 '0' = '0' ∧ rnum < rden then
      coeff * rnum * 16
    else
      coeff * rnum
  -- ceil(scaledNum / rden)
  let c : Nat := (scaledNum + (rden - 1)) / rden
  let rendered := (hexRender c).toList
  let adjusted : Nat × List Char :=
    if rendered.length = COEFFICIENT_LENGTH - 1 then
      (exponentVal - 1, rendered ++ ['0'])
    else if rendered.length > COEFFICIENT_LENGTH then
      (exponentVal + 1, '0' :: rendered.take (COEFFICIENT_LENGTH - 1))
    else
      (exponentVal, rendered)
  let newCompact := hexEncodeByte (adjusted.1 % 256) ++ String.mk adjusted.2
  (newCompact, hexValue newCompact.toList)

/-- Target predicate accepting every block.  `append_block` is parametric in
the target predicate (see its doc comment), so concrete runs are driven with
the all-accepting instance. -/
def ctTrue : Nat → HashVal → Bool := fun _ _ => true

/-- Concrete block whose only transaction always fails (a transfer with no
sender set), for exercising the rollback path. -/
def blockC1 : Block :=
  (Block.new none 5).add_transaction (Transaction.new (.transfer "r" 5) none)

/-- Stub block standing for an already-appended genesis block in the concrete
retarget scenario. -/
def blkStub : Block := Block.new none 50

/-- Concrete non-genesis ledger at the easiest difficulty
(`current_target = MAX_TARGET`, compact form `1ffffff0`). -/
def bcC2 : Blockchain :=
  { blocks := [blkStub],
    accounts := [("a", { account_type := .user, balance := 10,
                         public_key := 1 })],
    transaction_pool := [], current_target := MAX_TARGET,
    last_timestamp := 100 }

/-- Concrete block mined instantly (timestamp delta 0, so the retarget ratio
clamps to 0.25) whose single transaction succeeds. -/
def blockC2 : Block :=
  (Block.new (some blkStub.calcHash) 100).add_transaction
    (Transaction.new (.createAccount "b" 2) (some "b"))

/-- Simple create-account transaction used by the chain-linkage scenario. -/
def txG (id : AccountId) (pk : PK) : Transaction :=
  Transaction.new (.createAccount id pk) (some id)

/-- Genesis block of the chain-linkage scenario. -/
def B1 : Block := (Block.new none 100).add_transaction (txG "a" 1)

/-- Ledger after appending the genesis block. -/
def bc1 : Blockchain := (Blockchain.append_block ctTrue Blockchain.new B1).2

/-- Second block, linked to the genesis block's hash. -/
def B2 : Block :=
  (Block.new bc1.get_last_block_hash 101).add_transaction (txG "b" 2)

/-- Ledger after appending the second block. -/
def bc2 : Blockchain := (Blockchain.append_block ctTrue bc1 B2).2

/-- Third block, linked to the second block's hash. -/
def B3 : Block :=
  (Block.new bc2.get_last_block_hash 102).add_transaction (txG "c" 3)

/-- Ledger after appending all three blocks. -/
def bc3 : Blockchain := (Blockchain.append_block ctTrue bc2 B3).2

/-- The second block with its stored transaction data mutated in place: the
cached `hash` field is untouched, exactly as an `iter_mut` tamper leaves it. -/
def B2tampered : Block := { B2 with transactions := [txG "z" 9] }

/-- The all-zero 64-digit hash. -/
def zeros64 : String := String.mk (List.replicate 64 '0')

/-- A valid 64-digit hex hash whose first non-zero digit is the last digit. -/
def badHash : String := String.mk (List.replicate 63 '0' ++ ['1'])

/-- Total supply: the sum of all account balances in the table. -/
def totalSupply (m : AccountMap) : Nat :=
  (m.map (fun p => p.2.balance)).sum

lemma get_account_cons (k : AccountId) (b : Account) (rest : AccountMap)
    (id : AccountId) :
    get_account_by_id ((k, b) :: rest) id
      = if id = k then some b else get_account_by_id rest id := by
  simp only [get_account_by_id, List.lookup]
  split <;> simp_all

lemma modifyAccount_cons (k : AccountId) (b : Account) (rest : AccountMap)
    (id : AccountId) (f : Account → Account) :
    modifyAccount ((k, b) :: rest) id f
      = if k = id then (k, f b) :: rest
        else (k, b) :: modifyAccount rest id f := rfl

lemma get_modify_self (m : AccountMap) (id : AccountId)
    (f : Account → Account) (a : Account)
    (h : get_account_by_id m id = some a) :
    get_account_by_id (modifyAccount m id f) id = some (f a) := by
  induction m with
  | nil => simp [get_account_by_id, List.lookup] at h
  | cons p rest ih =>
    obtain ⟨k, b⟩ := p
    rw [get_account_cons] at h
    by_cases hk : id = k
    · subst hk
      rw [if_pos rfl] at h
      cases h
      rw [modifyAccount_cons, if_pos rfl, get_account_cons, if_pos rfl]
    · rw [if_neg hk] at h
      rw [modifyAccount_cons, if_neg (fun hh => hk hh.symm), get_account_cons,
        if_neg hk]
      exact ih h

lemma get_modify_ne (m : AccountMap) (id k : AccountId)
    (f : Account → Account) (hne : k ≠ id) :
    get_account_by_id (modifyAccount m id f) k = get_account_by_id m k := by
  induction m with
  | nil => rfl
  | cons p rest ih =>
    obtain ⟨k2, b⟩ := p
    rw [modifyAccount_cons]
    by_cases hk : k2 = id
    · subst hk
      rw [if_pos rfl, get_account_cons, get_account_cons,
        if_neg hne, if_neg hne]
    · rw [if_neg hk, get_account_cons, get_account_cons]
      by_cases hkk : k = k2
      · rw [if_pos hkk, if_pos hkk]
      · rw [if_neg hkk, if_neg hkk]
        exact ih

lemma supply_modify (m : AccountMap) (id : AccountId)
    (f : Account → Account) (a : Account)
    (h : get_account_by_id m id = some a) :
    totalSupply (modifyAccount m id f) + a.balance
      = totalSupply m + (f a).balance := by
  induction m with
  | nil => simp [get_account_by_id, List.lookup] at h
  | cons p rest ih =>
    obtain ⟨k, b⟩ := p
    rw [get_account_cons] at h
    by_cases hk : id = k
    · subst hk
      rw [if_pos rfl] at h
      cases h
      rw [modifyAccount_cons, if_pos rfl]
      simp [totalSupply]
      omega
    · rw [if_neg hk] at h
      rw [modifyAccount_cons, if_neg (fun hh => hk hh.symm)]
      have := ih h
      simp [totalSupply] at this ⊢
      omega

lemma append_block_target_le (ct : Nat → HashVal → Bool) (bc : Blockchain)
    (block : Block) (h : bc.current_target ≤ MAX_TARGET) :
    ((Blockchain.append_block ct bc block).2).current_target ≤ MAX_TARGET := by
  unfold Blockchain.append_block
  dsimp only
  repeat' split
  all_goals first
    | exact h
    | exact le_refl MAX_TARGET
    | (rename_i hnotle
       dsimp only at hnotle ⊢
       omega)

lemma reachable_target_le (bc : Blockchain) (h : Reachable bc) :
    bc.current_target ≤ MAX_TARGET := by
  induction h with
  | new => exact le_refl _
  | step ct bc2 block _ ih => exact append_block_target_le ct bc2 block ih

lemma verify_hash_eq (b : Block) (h : b.verify = true) :
    b.hash = some b.calcHash := by
  unfold Block.verify at h
  cases hh : b.hash with
  | none => rw [hh] at h; exact absurd h (by simp)
  | some v => rw [hh] at h; simp at h; rw [h]

lemma validateLoop_cons_eq (len : Nat) (b : Block) (rest : Chain)
    (num : Nat) (prevH : Option HashVal) :
    validateLoop len (b :: rest) num prevH =
      if b.verify = false then
        .error ("Block " ++ toString num ++ " has invalid hash")
      else if (num == 1) = false && b.prev_hash.isNone then
        .error ("Block " ++ toString num ++ " doesn\x27t have prev_hash")
      else if (num == 1) && b.prev_hash.isSome then
        .error ("Genesis block shouldn\x27t have prev_hash")
      else if (num == len) = false
          && prevH.elim false
            (fun p => !(p == b.hash.getD (HashVal.blkNone 0 []))) then
        .error ("Block " ++ toString (num + 1) ++
          " prev_hash doesn\x27t match Block " ++ toString num ++ " hash")
      else validateLoop len rest (num - 1) b.prev_hash := by
  simp only [validateLoop]
  split
  · rfl
  · split
    · rfl
    · split
      · rfl
      · cases prevH with
        | none => simp
        | some p =>
          by_cases hl : (num == len) = false
          · by_cases hpc : p = b.hash.getD (HashVal.blkNone 0 [])
            · simp [hl, hpc]
            · simp [hl, hpc]
          · simp at hl
            simp [hl]

lemma validateLoop_ok_iff (len : Nat) (rest : Chain) :
    ∀ newer : Block,
    rest.length < len → newer.verify = true →
    (rest ≠ [] → newer.prev_hash.isSome = true) →
    (validateLoop len rest rest.length newer.prev_hash = .ok ()
      ↔ ((∀ b2 l, rest = b2 :: l → newer.prev_hash = some b2.calcHash)
          ∧ specChainValid rest = true)) := by
  induction rest with
  | nil =>
    intro newer _ _ _
    simp [validateLoop, specChainValid]
  | cons b rest ih =>
    intro newer hlen hver hsome
    obtain ⟨p, hp⟩ := Option.isSome_iff_exists.mp (hsome (by simp))
    have hnumlen : (((b :: rest).length : Nat) == len) = false := by
      simp only [beq_eq_false_iff_ne, ne_eq]
      omega
    rw [hp, validateLoop_cons_eq]
    by_cases hbv : b.verify = true
    · have hashb := verify_hash_eq b hbv
      cases rest with
      | nil =>
        cases hpb : b.prev_hash with
        | none =>
          have hne1 : ¬ ((1 : Nat) = len) := by
            simp at hlen
            omega
          by_cases hpc : p = b.calcHash <;>
            simp [validateLoop, hbv, hpb, hashb, hnumlen, hpc, specChainValid,
              hne1]
        | some q =>
          simp [hbv, hpb, hashb, hnumlen, specChainValid]
      | cons b2 rest2 =>
        have hgen : (((b :: b2 :: rest2).length : Nat) == 1) = false := by
          simp
        cases hpb : b.prev_hash with
        | none =>
          simp [hbv, hgen, hpb, specChainValid]
        | some q =>
          have ihx := ih b (by simp at hlen ⊢; omega) hbv
            (fun _ => by simp [hpb])
          rw [hpb] at ihx
          by_cases hpc : p = b.calcHash
          · simp only [hbv, hgen, hnumlen, hashb, hpb, hpc,
              List.length_cons, Nat.add_sub_cancel, Option.getD_some,
              Option.elim, Option.isSome_some, Bool.false_and,
              Bool.and_false, Bool.and_true, Bool.true_and, beq_self_eq_true,
              Bool.not_true, if_false, if_true, Bool.false_eq_true,
              Bool.not_eq_true]
            simp only [List.length_cons] at ihx
            rw [if_neg (by simp)]
            rw [if_neg (by simp)]
            rw [if_neg (by simp)]
            rw [ihx]
            simp [specChainValid, hpb, hpc, hbv]
          · have hne2 : ¬ (rest2.length + 1 + 1 = len) := by
              simp at hnumlen
              simpa using hnumlen
            simp [hbv, hgen, hnumlen, hashb, hpb, hpc, specChainValid, hne2]
    · have hbv2 : b.verify = false := by simpa using hbv
      rw [if_pos hbv2]
      cases rest <;> simp [specChainValid, hbv2]

lemma validate_ok_iff (bc : Blockchain) :
    bc.validate = .ok () ↔ specChainValid bc.blocks = true := by
  unfold Blockchain.validate
  cases hb : bc.blocks with
  | nil => simp [validateLoop, specChainValid]
  | cons b rest =>
    rw [validateLoop_cons_eq]
    by_cases hbv : b.verify = true
    · have hashb := verify_hash_eq b hbv
      cases rest with
      | nil =>
        cases hpb : b.prev_hash with
        | none => simp [validateLoop, hbv, hpb, specChainValid]
        | some q => simp [hbv, hpb, specChainValid]
      | cons b2 rest2 =>
        have hgen : (((b :: b2 :: rest2).length : Nat) == 1) = false := by
          simp
        cases hpb : b.prev_hash with
        | none => simp [hbv, hgen, hpb, specChainValid]
        | some q =>
          have ihx := validateLoop_ok_iff ((b :: b2 :: rest2).length)
            (b2 :: rest2) b (by simp) hbv (fun _ => by simp [hpb])
          rw [hpb] at ihx
          simp only [List.length_cons, Nat.add_sub_cancel] at ihx ⊢
          simp [hbv, hgen, hpb, specChainValid, Option.elim]
          rw [ihx]
          simp [specChainValid]
    · have hbv2 : b.verify = false := by simpa using hbv
      rw [if_pos hbv2]
      cases rest <;> simp [specChainValid, hbv2]

lemma is_enough_iff (acc amount : Nat) :
    is_enough acc amount = true ↔ amount < acc := by
  unfold is_enough
  split <;> simp_all

/-- Claim C1: for every ledger state and every block whose transaction
sequence contains a failing transaction, `append_block` returns an error and
leaves the entire ledger (account table, chain, current_target,
last_timestamp) exactly equal to its state before the call - the account
snapshot is restored in full and no partial application of earlier
transactions in the block is observable. -/
theorem append_block_full_rollback (ct : Nat → HashVal → Bool)
    (bc : Blockchain) (block : Block)
    (h : (execTxs block.transactions bc.accounts
        (bc.blocks.length == 0)).isOk = false) :
    (Blockchain.append_block ct bc block).1.isOk = false
      ∧ (Blockchain.append_block ct bc block).2 = bc := by
  unfold Blockchain.append_block
  dsimp only
  repeat' split
  all_goals simp_all [Except.isOk, Except.toBool]

/-- Witness for C1: a block whose only transaction fails leaves a fresh
ledger untouched. -/
theorem append_block_full_rollback_witness :
    (execTxs blockC1.transactions Blockchain.new.accounts
        (Blockchain.new.blocks.length == 0)).isOk = false
    ∧ (Blockchain.append_block ctTrue Blockchain.new blockC1).2
        = Blockchain.new :=
  ⟨by decide,
   (append_block_full_rollback ctTrue Blockchain.new blockC1 (by decide)).2⟩

/-- Claim C6: `current_target ≤ MAX_TARGET` is an invariant of every
reachable ledger state - `Blockchain::new` establishes it with
`current_target = MAX_TARGET`, and every `append_block` call preserves it
because a retargeted value at or above `MAX_TARGET` is clamped; in
particular repeated retargeting (at the ratio clamp boundaries or anywhere
else) never yields a target above `MAX_TARGET`. -/
theorem current_target_invariant :
    Blockchain.new.current_target = MAX_TARGET
    ∧ (∀ (ct : Nat → HashVal → Bool) (bc : Blockchain) (block : Block),
        bc.current_target ≤ MAX_TARGET →
        ((Blockchain.append_block ct bc block).2).current_target ≤ MAX_TARGET)
    ∧ (∀ bc : Blockchain, Reachable bc → bc.current_target ≤ MAX_TARGET) :=
  ⟨rfl,
   fun ct bc block h => append_block_target_le ct bc block h,
   fun bc h => reachable_target_le bc h⟩

/-- Witness for C6: the fresh ledger is reachable and satisfies the bound. -/
theorem current_target_invariant_witness :
    Reachable Blockchain.new
    ∧ Blockchain.new.current_target ≤ MAX_TARGET :=
  ⟨Reachable.new,
   current_target_invariant.2.2 Blockchain.new Reachable.new⟩

/-- Claim C5: a `MintInitialSupply` transaction executed with `is_genesis`
false is always rejected, regardless of whether the recipient is valid; with
`is_genesis` true it fails if the recipient does not already exist, and
otherwise adds exactly `amount` to the recipient's balance. -/
theorem mint_genesis_only (m : AccountMap) (t : Transaction)
    (toId : AccountId) (amount : Nat)
    (hdata : t.data = .mintInitialSupply toId amount) :
    t.execute m false
      = .error ("Initial supply can be minted only in genesis block.")
    ∧ (get_account_by_id m toId = none →
        t.execute m true = .error ("Invalid account."))
    ∧ (∀ acct, get_account_by_id m toId = some acct →
        t.execute m true
          = .ok (modifyAccount m toId
              (fun a => { a with balance := a.balance + amount }))
        ∧ get_account_by_id
            (modifyAccount m toId
              (fun a => { a with balance := a.balance + amount })) toId
          = some { acct with balance := acct.balance + amount }) := by
  refine ⟨?_, ?_, ?_⟩
  · unfold Transaction.execute
    rw [hdata]
    rfl
  · intro hnone
    unfold Transaction.execute
    rw [hdata]
    simp [hnone]
  · intro acct hsome
    refine ⟨?_, get_modify_self m toId _ acct hsome⟩
    unfold Transaction.execute
    rw [hdata]
    simp [hsome]

/-- Witness for C5: a genesis mint of 7 to an account holding 3 yields 10,
and the same mint outside genesis is rejected. -/
theorem mint_genesis_only_witness :
    ({ nonce := 0, timestamp := 0, sender := none,
       data := .mintInitialSupply "a" 7, signature := none
       : Transaction }.execute
      [("a", { account_type := .user, balance := 3, public_key := 1 })] true)
      = .ok [("a", { account_type := .user, balance := 10,
                     public_key := 1 })]
    ∧ ({ nonce := 0, timestamp := 0, sender := none,
         data := .mintInitialSupply "a" 7, signature := none
         : Transaction }.execute
        [("a", { account_type := .user, balance := 3, public_key := 1 })]
        false).isOk = false := by
  have h := mint_genesis_only
    [("a", { account_type := .user, balance := 3, public_key := 1 })]
    { nonce := 0, timestamp := 0, sender := none,
      data := .mintInitialSupply "a" 7, signature := none }
    "a" 7 rfl
  refine ⟨?_, ?_⟩
  · rw [(h.2.2 { account_type := .user, balance := 3, public_key := 1 }
      (by decide)).1]
    decide
  · rw [h.1]
    decide

/-- Claim C10: the all-zero 64-digit hash never clears any target at or
below `MAX_TARGET`: `find_beginning_of_hash` returns 0 for it,
`hash_to_bits` encodes the full 32-byte length as exponent `0x20`, giving
compact value `0x20000000 = 536870912 > MAX_TARGET = 536870896`, so
`check_target` is false for every such target. -/
theorem zero_hash_never_clears :
    find_beginning_of_hash zeros64 = 0
    ∧ hash_to_bits zeros64 = some ("20000000")
    ∧ parseHex? ("20000000") = some 536870912
    ∧ 536870912 > MAX_TARGET
    ∧ (∀ t : Nat, t ≤ MAX_TARGET → check_target t zeros64 = some false) := by
  refine ⟨by decide, by decide, by decide, by decide, ?_⟩
  intro t ht
  have hct : check_target t zeros64 = some (decide (536870912 < t)) := by
    unfold check_target
    rw [show hash_to_bits zeros64 = some ("20000000") from by decide]
    dsimp only
    rw [show parseHex? ("20000000") = some 536870912 from by decide]
  rw [hct]
  simp only [Option.some.injEq, decide_eq_false_iff_not, not_lt]
  unfold MAX_TARGET at ht
  omega

/-- Witness for C10: the all-zero hash fails even the easiest target. -/
theorem zero_hash_never_clears_witness :
    MAX_TARGET ≤ MAX_TARGET
    ∧ check_target MAX_TARGET zeros64 = some false :=
  ⟨le_refl _,
   zero_hash_never_clears.2.2.2.2 MAX_TARGET (le_refl _)⟩

/-- Counterexample to claim C4 as stated: with the sender's balance exactly
equal to the amount (5 = 5, so not `balance < amount`), the transfer is
nevertheless rejected with the insufficient-balance error, because
`is_enough` requires `balance > amount` strictly. -/
theorem insufficient_balance_counterexample :
    ({ nonce := 0, timestamp := 0, sender := some "s",
       data := .transfer "r" 5, signature := none : Transaction }.execute
      [("s", { account_type := .user, balance := 5, public_key := 1 }),
       ("r", { account_type := .user, balance := 0, public_key := 2 })]
      false)
      = .error ("Sender haven\x27t enough money!")
    ∧ ¬ ((5 : Nat) < 5) :=
  ⟨by decide, by decide⟩

/-- Amended claim C4: for a transfer whose sender is set and exists and whose
receiver exists, insufficiency of funds is exactly `balance ≤ amount`: the
transfer is rejected with the insufficient-balance error iff the sender's
balance is less than or equal to `amount`, and it succeeds iff the balance
strictly exceeds `amount` (`is_enough` tests `balance > amount`). -/
theorem transfer_balance_check (m : AccountMap) (g : Bool) (t : Transaction)
    (toId : AccountId) (amount : Nat) (s : AccountId) (sa : Account)
    (hdata : t.data = .transfer toId amount)
    (hs : t.sender = some s)
    (hsa : get_account_by_id m s = some sa)
    (hr : (get_account_by_id m toId).isSome = true) :
    ((t.execute m g).isOk = true ↔ amount < sa.balance)
    ∧ (t.execute m g = .error ("Sender haven\x27t enough money!")
        ↔ sa.balance ≤ amount) := by
  obtain ⟨ra, hra⟩ := Option.isSome_iff_exists.mp hr
  unfold Transaction.execute
  simp only [hdata, hs, hsa, hra]
  by_cases hb : amount < sa.balance
  · have he : is_enough sa.balance amount = true := (is_enough_iff _ _).mpr hb
    simp [he, Except.isOk, Except.toBool]
    omega
  · have he : is_enough sa.balance amount = false := by
      rw [← Bool.not_eq_true, is_enough_iff]
      omega
    simp [he, Except.isOk, Except.toBool]
    omega

/-- Witness for the amended C4: a balance of 10 suffices for a transfer of 5
and a balance of 5 does not. -/
theorem transfer_balance_check_witness :
    (({ nonce := 0, timestamp := 0, sender := some "s",
        data := .transfer "r" 5, signature := none : Transaction }.execute
      [("s", { account_type := .user, balance := 10, public_key := 1 }),
       ("r", { account_type := .user, balance := 0, public_key := 2 })]
      false).isOk = true) :=
  ((transfer_balance_check
      [("s", { account_type := .user, balance := 10, public_key := 1 }),
       ("r", { account_type := .user, balance := 0, public_key := 2 })]
      false
      { nonce := 0, timestamp := 0, sender := some "s",
        data := .transfer "r" 5, signature := none }
      "r" 5 "s" { account_type := .user, balance := 10, public_key := 1 }
      rfl rfl (by decide) (by decide)).1).mpr (by decide)

/-- Counterexample to claim C7 as stated: a successful self-transfer
(sender = receiver) of amount 5 from a balance of 10 leaves the balance at
10, so the sender's balance does not decrease by 5. -/
theorem transfer_delta_counterexample :
    ({ nonce := 0, timestamp := 0, sender := some "a",
       data := .transfer "a" 5, signature := none : Transaction }.execute
      [("a", { account_type := .user, balance := 10, public_key := 1 })]
      false)
      = .ok [("a", { account_type := .user, balance := 10,
                     public_key := 1 })]
    ∧ (10 : Nat) ≠ 10 - 5 :=
  ⟨by decide, by decide⟩

/-- Amended claim C7: for every successful transfer, the sum of all account
balances is unchanged; when additionally the sender and receiver are
distinct, the sender's balance decreases by exactly `amount` and the
receiver's balance increases by exactly `amount`.  For every successful
`MintInitialSupply`, the sum of all balances increases by exactly `amount`. -/
theorem transfer_mint_conservation (g : Bool) :
    (∀ (m : AccountMap) (t : Transaction) (toId : AccountId) (amount : Nat)
        (s : AccountId) (m2 : AccountMap),
      t.data = .transfer toId amount → t.sender = some s →
      t.execute m g = .ok m2 →
      totalSupply m2 = totalSupply m
      ∧ (s ≠ toId → ∀ sa ra, get_account_by_id m s = some sa →
          get_account_by_id m toId = some ra →
          get_account_by_id m2 s
            = some { sa with balance := sa.balance - amount }
          ∧ sa.balance - amount + amount = sa.balance
          ∧ get_account_by_id m2 toId
            = some { ra with balance := ra.balance + amount }))
    ∧ (∀ (m : AccountMap) (t : Transaction) (toId : AccountId)
        (amount : Nat) (m2 : AccountMap),
      t.data = .mintInitialSupply toId amount →
      t.execute m g = .ok m2 →
      totalSupply m2 = totalSupply m + amount) := by
  constructor
  · intro m t toId amount s m2 hdata hs hok
    unfold Transaction.execute at hok
    rw [hdata] at hok
    simp only [hs] at hok
    cases hsa : get_account_by_id m s with
    | none => rw [hsa] at hok; simp at hok
    | some sa =>
      rw [hsa] at hok
      dsimp only at hok
      by_cases hb : is_enough sa.balance amount = true
      · rw [hb] at hok
        have hlt : amount < sa.balance := (is_enough_iff _ _).mp hb
        cases hra : get_account_by_id m toId with
        | none => simp [hra] at hok
        | some ra =>
          rw [hra] at hok
          dsimp only at hok
          have hm2 : m2 = modifyAccount
              (modifyAccount m toId
                (fun a => { a with balance := a.balance + amount })) s
              (fun a => { a with balance := a.balance - amount }) := by
            simp at hok
            exact hok.symm
          have hsup1 := supply_modify m toId
            (fun a => { a with balance := a.balance + amount }) ra hra
          constructor
          · by_cases hst : s = toId
            · subst hst
              have hsara : sa = ra := by rw [hsa] at hra; cases hra; rfl
              subst hsara
              have hgot := get_modify_self m s
                (fun a => { a with balance := a.balance + amount }) sa hsa
              have hsup2 := supply_modify
                (modifyAccount m s
                  (fun a => { a with balance := a.balance + amount })) s
                (fun a => { a with balance := a.balance - amount })
                { sa with balance := sa.balance + amount } hgot
              rw [hm2]
              simp at hsup1 hsup2 ⊢
              omega
            · have hgot : get_account_by_id
                  (modifyAccount m toId
                    (fun a => { a with balance := a.balance + amount })) s
                  = some sa := by
                rw [get_modify_ne m toId s _ hst]
                exact hsa
              have hsup2 := supply_modify
                (modifyAccount m toId
                  (fun a => { a with balance := a.balance + amount })) s
                (fun a => { a with balance := a.balance - amount }) sa hgot
              rw [hm2]
              simp at hsup1 hsup2 ⊢
              omega
          · intro hst sa2 ra2 hsa2 hra2
            have hsaeq : sa2 = sa := by cases hsa2; rfl
            have hraeq : ra2 = ra := by cases hra2; rfl
            subst hsaeq
            subst hraeq
            have hgot : get_account_by_id
                (modifyAccount m toId
                  (fun a => { a with balance := a.balance + amount })) s
                = some sa2 := by
              rw [get_modify_ne m toId s _ hst]
              exact hsa
            refine ⟨?_, by omega, ?_⟩
            · rw [hm2]
              exact get_modify_self _ s _ sa2 hgot
            · rw [hm2]
              rw [get_modify_ne _ s toId _ (fun hh => hst hh.symm)]
              exact get_modify_self m toId _ ra2 hra
      · have he : is_enough sa.balance amount = false := by
          simpa using hb
        rw [he] at hok
        simp at hok
  · intro m t toId amount m2 hdata hok
    unfold Transaction.execute at hok
    rw [hdata] at hok
    cases g with
    | false => simp at hok
    | true =>
      simp only [Bool.not_true] at hok
      cases hra : get_account_by_id m toId with
      | none => rw [hra] at hok; simp at hok
      | some acct =>
        rw [hra] at hok
        dsimp only at hok
        simp at hok
        have hsup := supply_modify m toId
          (fun a => { a with balance := a.balance + amount }) acct hra
        rw [← hok]
        simp at hsup ⊢
        omega

/-- Witness for the amended C7: a transfer of 5 between two distinct
accounts (balances 9 and 0) preserves the total supply. -/
theorem transfer_mint_conservation_witness :
    totalSupply [("s", { account_type := .user, balance := 4,
                         public_key := 1 }),
                 ("r", { account_type := .user, balance := 5,
                         public_key := 2 })]
      = totalSupply [("s", { account_type := .user, balance := 9,
                             public_key := 1 }),
                     ("r", { account_type := .user, balance := 0,
                             public_key := 2 })] :=
  ((transfer_mint_conservation false).1
    [("s", { account_type := .user, balance := 9, public_key := 1 }),
     ("r", { account_type := .user, balance := 0, public_key := 2 })]
    { nonce := 0, timestamp := 0, sender := some "s",
      data := .transfer "r" 5, signature := none }
    "r" 5 "s"
    [("s", { account_type := .user, balance := 4, public_key := 1 }),
     ("r", { account_type := .user, balance := 5, public_key := 2 })]
    rfl rfl (by decide)).1

/-- Claim C3: a `CreateAccount` or `Transfer` transaction that carries no
signature, or whose signature was produced over bytes different from the
transaction's own hash, is always rejected by the signature-verifying
execute, regardless of the rest of the world state. -/
theorem signature_gating (m : AccountMap) (g : Bool) (t : Transaction)
    (hdata : (∃ id pk, t.data = .createAccount id pk)
      ∨ (∃ toId amount, t.data = .transfer toId amount))
    (hsig : t.signature = none
      ∨ (∃ s2, t.signature = some s2 ∧ s2.2 ≠ t.hash)) :
    (t.executeSigned m g).isOk = false := by
  have hver : ∀ (pk : PK) (s2 : Sig), s2.2 ≠ t.hash →
      sigVerify pk t.hash s2 = false := by
    intro pk s2 hne
    unfold sigVerify
    simp [hne]
  rcases hdata with ⟨id, pk, hd⟩ | ⟨toId, amount, hd⟩
  · unfold Transaction.executeSigned
    rw [hd]
    cases hsnd : t.sender with
    | none => simp [Except.isOk, Except.toBool]
    | some sender =>
      dsimp only
      split
      · simp [Except.isOk, Except.toBool]
      · rcases hsig with hnone | ⟨s2, hs2, hne⟩
        · rw [hnone]
          simp [Except.isOk, Except.toBool]
        · rw [hs2]
          dsimp only
          rw [hver pk s2 hne]
          simp [Except.isOk, Except.toBool]
  · unfold Transaction.executeSigned
    rw [hd]
    cases hsnd : t.sender with
    | none => simp [Except.isOk, Except.toBool]
    | some sender =>
      dsimp only
      cases hsa : get_account_by_id m sender with
      | none => simp [Except.isOk, Except.toBool]
      | some sender_account =>
        dsimp only
        rcases hsig with hnone | ⟨s2, hs2, hne⟩
        · rw [hnone]
          simp [Except.isOk, Except.toBool]
        · rw [hs2]
          dsimp only
          rw [hver sender_account.public_key s2 hne]
          simp [Except.isOk, Except.toBool]

/-- Witness for C3: an unsigned self-registration is rejected even on a
fresh world state. -/
theorem signature_gating_witness :
    ((Transaction.new (.createAccount "a" 1) (some "a")).executeSigned []
      true).isOk = false :=
  signature_gating [] true (Transaction.new (.createAccount "a" 1) (some "a"))
    (Or.inl ⟨"a", 1, rfl⟩) (Or.inl rfl)

/-- Claim C8: `validate` walks the chain from most recent to oldest and
returns Ok exactly when every block's cached hash equals its recomputed
hash, the oldest block has no `prev_hash` while every other block has one,
and each block's `prev_hash` equals the hash of the block immediately
preceding it in chain order; concretely, for blocks B1 (genesis), B2
(prev = hash of B1), B3 (prev = hash of B2) all appended successfully,
`validate` succeeds, and mutating a stored transaction of B2 in place makes
`validate` fail at 1-based position 2 counted from the oldest block. -/
theorem validate_characterization :
    (∀ bc : Blockchain, bc.validate = .ok ()
      ↔ specChainValid bc.blocks = true)
    ∧ (Blockchain.append_block ctTrue Blockchain.new B1).1 = .ok ()
    ∧ (Blockchain.append_block ctTrue bc1 B2).1 = .ok ()
    ∧ (Blockchain.append_block ctTrue bc2 B3).1 = .ok ()
    ∧ bc3.blocks = [B3, B2, B1]
    ∧ B1.prev_hash = none
    ∧ B2.prev_hash = some B1.calcHash
    ∧ B3.prev_hash = some B2.calcHash
    ∧ bc3.validate = .ok ()
    ∧ Blockchain.validate { bc3 with blocks := [B3, B2tampered, B1] }
        = .error ("Block 2 has invalid hash") :=
  ⟨validate_ok_iff, by decide, by decide, by decide, by decide, by decide,
   by decide, by decide, by decide, by decide⟩

/-- Claim C9: `hash_to_bits` is partial on 64-character hex hashes - it
slices the first `COEFFICIENT_LENGTH` digits of the zero-stripped (and
parity-padded) trailing substring unconditionally, so any hash whose padded
trailing substring is shorter than 6 digits (first non-zero digit at index
60 or later) makes the slice panic, and `check_target` is partial on such
hashes rather than returning an error. -/
theorem hash_to_bits_panics :
    badHash.length = 64
    ∧ badHash.toList.all (fun c => (hexDigitVal? c).isSome) = true
    ∧ hash_to_bits badHash = none
    ∧ (∀ t : Nat, check_target t badHash = none)
    ∧ (∀ hash : String, hash.length = 64 →
        60 ≤ find_beginning_of_hash hash → hash_to_bits hash = none) := by
  refine ⟨by decide, by decide, by decide, ?_, ?_⟩
  · intro t
    unfold check_target
    rw [show hash_to_bits badHash = none from by decide]
  · intro hash hlen hbeg
    unfold hash_to_bits
    dsimp only
    have hlist : hash.toList.length = 64 := by
      rw [← hlen]
      rfl
    have hdrop : (hash.toList.drop (find_beginning_of_hash hash)).length ≤ 4 := by
      rw [List.length_drop, hlist]
      omega
    split <;>
      (rename_i hpar
       split
       · rename_i hcond
         unfold COEFFICIENT_LENGTH at hcond
         try simp at hcond
         omega
       · rfl)

/-- Witness for C9: the hash with 63 zeros and a final 1 has its first
non-zero digit at index 63, and the general partiality condition applies. -/
theorem hash_to_bits_panics_witness :
    badHash.length = 64
    ∧ 60 ≤ find_beginning_of_hash badHash
    ∧ hash_to_bits badHash = none :=
  ⟨by decide, by decide,
   hash_to_bits_panics.2.2.2.2 badHash (by decide) (by decide)⟩

/-- Counterexample to claim C2 as stated: at a concrete non-genesis accepted
block (ratio clamped to 0.25, current compact form `1ffffff0`), the ledger's
new `current_target` is `ceil(536870896 * 0.25) = 134217724`, while the
spec's compact-form procedure yields compact `1f3ffffc`, numeric value
`524287996`.  The code scales the packed numeric target directly and keeps
no `compact_form` at all (the `Blockchain` struct has no such field), so the
two disagree. -/
theorem compact_retarget_counterexample :
    (Blockchain.append_block ctTrue bcC2 blockC2).1 = .ok ()
    ∧ bcC2.blocks.length ≠ 0
    ∧ bcC2.current_target = 536870896
    ∧ (Blockchain.append_block ctTrue bcC2 blockC2).2.current_target
        = 134217724
    ∧ specCompactRetarget ("1ffffff0") 1 4 = (("1f3ffffc"), 524287996)
    ∧ (134217724 : Nat) ≠ 524287996 :=
  ⟨by decide, by decide, by decide, by decide, by decide, by decide⟩

/-- Amended claim C2: for every non-genesis block accepted by
`append_block`, the new difficulty is computed numerically on the packed
target value - `current_target` is multiplied by the clamped ratio
`actual/EXPECTED_TIME` (the exact rational `2*actual/3` clamped to
`[1/4, 4]`), the product is ceiled, and the result is clamped to
`MAX_TARGET`; no exponent/coefficient split, times-16 compensation, or
borrow/carry is performed, and the ledger keeps no `compact_form` field. -/
theorem append_block_numeric_retarget (ct : Nat → HashVal → Bool)
    (bc : Blockchain) (block : Block) (bc2 : Blockchain)
    (hne : (bc.blocks.length == 0) = false)
    (h : Blockchain.append_block ct bc block = (.ok (), bc2)) :
    bc2.current_target =
      (let actual : Nat := block.timestamp - bc.last_timestamp
       let num_den : Nat × Nat :=
         if 8 * actual < 3 then (1, 4)
         else if 12 < 2 * actual then (4, 1)
         else (2 * actual, 3)
       let c : Nat :=
         (bc.current_target * num_den.1 + (num_den.2 - 1)) / num_den.2
       if MAX_TARGET ≤ c then MAX_TARGET else c)
    ∧ bc2.current_target ≤ MAX_TARGET := by
  unfold Blockchain.append_block at h
  dsimp only at h
  repeat' split at h
  all_goals simp only [Prod.mk.injEq] at h
  all_goals obtain ⟨h1, h2⟩ := h
  all_goals try (exact Except.noConfusion h1)
  all_goals
    (subst h2
     dsimp only
     repeat' split
     all_goals try dsimp only at *
     all_goals omega)

/-- Witness for the amended C2: the concrete non-genesis append realises the
numeric retarget formula and respects the clamp. -/
theorem append_block_numeric_retarget_witness :
    (Blockchain.append_block ctTrue bcC2 blockC2).2.current_target
      ≤ MAX_TARGET :=
  (append_block_numeric_retarget ctTrue bcC2 blockC2
    (Blockchain.append_block ctTrue bcC2 blockC2).2
    (by decide) (by decide)).2
